import Mathlib

/-!
Shallow embedding of the Authentication & Session Lifecycle core of the
claude-code CLI repository: the token helpers (auth/tokens.ts), the OAuth
flow engine (auth/oauth.ts), the two session managers (auth/manager.ts and
auth/index.ts) and the network-resilience primitives (utils/async.ts).

JavaScript strings are modelled as List Char; JavaScript numbers that hold
Unix timestamps or counters are modelled as Int (so that subtraction behaves
as in the source).  Network responses, clocks and random nonces are passed in
as explicit parameters, since they are the effectful inputs of the source
functions.  Logging is omitted (it has no effect on any value).
-/

namespace CC

/-- JavaScript string truthiness: the empty string is falsy. -/
def strTruthy (s : List Char) : Bool :=
  !s.isEmpty

/-- Truthiness of an optional string field (undefined and the empty string are falsy). -/
def optStrTruthy : Option (List Char) → Bool
  | none => false
  | some s => strTruthy s

/-- JavaScript a-or-b on optional string fields, as in data.token_type or defaults. -/
def jsOrStr : Option (List Char) → List Char → List Char
  | none, d => d
  | some s, d => if s.isEmpty then d else s

/-- JavaScript a-or-b on optional number fields (0 is falsy), as in data.expires_in or 3600. -/
def jsOrInt : Option Int → Int → Int
  | none, d => d
  | some n, d => if n = 0 then d else n

/-- Characters removed by the JavaScript String.trim operation. -/
def jsWhitespaceChar (c : Char) : Bool :=
  c = ' ' || c = '\t' || c = '\n' || c = '\r'

/-- Model of JavaScript String.trim: strip leading and trailing whitespace. -/
def jsTrim (s : List Char) : List Char :=
  ((s.dropWhile jsWhitespaceChar).reverse.dropWhile jsWhitespaceChar).reverse

/-- Model of JavaScript String.substring: both indices are clamped into
the range from 0 to the length and swapped when given in reverse order;
an absent second index means the end of the string. -/
def jsSubstring (s : List Char) (start : Int) (stop? : Option Int) : List Char :=
  let len : Int := s.length
  let a := min (max start 0) len
  let b := match stop? with
    | none => len
    | some e => min (max e 0) len
  let lo := min a b
  let hi := max a b
  (s.take hi.toNat).drop lo.toNat

/-- Decide whether the second list is a prefix of the first, modelling
JavaScript String.startsWith. -/
def startsWithList : List Char → List Char → Bool
  | _, [] => true
  | [], _ :: _ => false
  | c :: s, p :: ps => c = p && startsWithList s ps

/-- Error categories of errors/types.ts (the constructors used by the auth core,
with the same names as the source enum). -/
inductive ErrorCategory where
  | APPLICATION
  | AUTHENTICATION
  | NETWORK
  | FILE_SYSTEM
  | COMMAND_EXECUTION
  | AI_SERVICE
  | CONFIGURATION
  | RESOURCE
  | UNKNOWN
  | INTERNAL
  | VALIDATION
  | INITIALIZATION
  | SERVER
  | API
  | TIMEOUT
  | RATE_LIMIT
deriving Repr, DecidableEq

/-- A structured user error as produced by createUserError in errors/formatter.ts. -/
structure UserError where
  message : List Char
  category : ErrorCategory
deriving Repr, DecidableEq

/-- The AuthToken record of auth/types.ts. -/
structure AuthToken where
  accessToken : List Char
  refreshToken : Option (List Char) := none
  expiresAt : Int
  tokenType : List Char
  scope : List Char
  id : Option (List Char) := none
deriving Repr, DecidableEq

/-- The AuthMethod enum of auth/types.ts. -/
inductive AuthMethod where
  | API_KEY
  | OAUTH
deriving Repr, DecidableEq

/-- The AuthState enum of auth/types.ts. -/
inductive AuthStateEnum where
  | INITIAL
  | AUTHENTICATING
  | AUTHENTICATED
  | FAILED
  | REFRESHING
  | EXPIRED
  | UNAUTHENTICATED
deriving Repr, DecidableEq

/-- The AuthResult record of auth/types.ts. -/
structure AuthResult where
  success : Bool
  method? : Option AuthMethod := none
  token? : Option AuthToken := none
  state : AuthStateEnum
  error? : Option (List Char) := none
deriving Repr, DecidableEq

/-! ### auth/tokens.ts -/

/-- isTokenExpired of auth/tokens.ts: a token with falsy expiresAt never
expires; otherwise it is expired when within thresholdSeconds of now. -/
def isTokenExpired (now : Int) (token : AuthToken) (thresholdSeconds : Int) : Bool :=
  if token.expiresAt = 0 then
    false
  else
    token.expiresAt - now ≤ thresholdSeconds

/-- validateToken of auth/tokens.ts. -/
def validateToken (now : Int) (token : AuthToken) : Bool :=
  if token.accessToken.isEmpty then
    false
  else if isTokenExpired now token 0 then
    false
  else
    true

/-- The details record assembled by getTokenDetails of auth/tokens.ts
(a Record with string values in the source; absent keys are none here). -/
structure TokenDetails where
  type : List Char
  expires : Option (List Char) := none
  expiresIn : Option (List Char) := none
  scope : Option (List Char) := none
  id : Option (List Char) := none
  accessToken : Option (List Char) := none
deriving Repr, DecidableEq

/-- formatTokenExpiration of auth/tokens.ts; rendering a Date through
toLocaleString is environment-dependent, so the renderer is a parameter. -/
def formatTokenExpiration (fmtDate : Int → List Char) (expiresAt : Int) : List Char :=
  if expiresAt = 0 then
    "never".toList
  else
    fmtDate expiresAt

/-- getTokenDetails of auth/tokens.ts.  The current clock and the locale date
renderer are explicit parameters.  The accessToken entry is the masked form
built from substring(0, 4) and substring(length - 4). -/
def getTokenDetails (now : Int) (fmtDate : Int → List Char) (token : AuthToken) : TokenDetails :=
  let base : TokenDetails :=
    { type := jsOrStr (some token.tokenType) "Bearer".toList }
  let base :=
    if token.expiresAt ≠ 0 then
      let expiresIn := token.expiresAt - now
      { base with
        expires := some (formatTokenExpiration fmtDate token.expiresAt),
        expiresIn :=
          if 0 < expiresIn then
            some ((toString (expiresIn / 60)).toList ++ " minutes".toList)
          else
            some "Expired".toList }
    else
      { base with expires := some "Never".toList }
  let base :=
    if strTruthy token.scope then { base with scope := some token.scope } else base
  let base :=
    match token.id with
    | some i => if strTruthy i then { base with id := some i } else base
    | none => base
  if strTruthy token.accessToken then
    let tokenLength : Int := token.accessToken.length
    { base with
      accessToken := some (jsSubstring token.accessToken 0 (some 4)
        ++ "...".toList
        ++ jsSubstring token.accessToken (tokenLength - 4) none) }
  else
    base

/-- extractTokenFromHeader of auth/tokens.ts. -/
def extractTokenFromHeader (header : List Char) : Option (List Char) :=
  if header.isEmpty then
    none
  else if startsWithList header "Bearer ".toList then
    some (jsTrim (header.drop 7))
  else if !header.contains ' ' then
    some (jsTrim header)
  else
    none

/-- createAuthorizationHeader of auth/tokens.ts. -/
def createAuthorizationHeader (token : AuthToken) : List Char :=
  jsOrStr (some token.tokenType) "Bearer".toList ++ " ".toList ++ token.accessToken

/-! ### auth/oauth.ts

The HTTP exchanges are effectful: each fetch against the token endpoint is
abstracted by a TokenResponse value handed to the function, and the current
clock is the explicit parameter now.  The random state nonce and the PKCE
verifier generated at the start of performOAuthFlow are likewise inputs.
Building the authorization URL and opening the browser only shape outbound
I/O and produce no value used afterwards, so they have no counterpart here. -/

/-- The decoded reply of a fetch against the token endpoint: the ok flag and
body text of the Response plus the JSON fields read from it. -/
structure TokenResponse where
  ok : Bool
  errorText : List Char := []
  access_token : List Char := []
  refresh_token : Option (List Char) := none
  expires_in : Option Int := none
  token_type : Option (List Char) := none
  scope : Option (List Char) := none
deriving Repr, DecidableEq

/-- The code and state query parameters delivered to the local callback
listener during performOAuthFlow. -/
structure CallbackResult where
  code : List Char
  receivedState : List Char
deriving Repr, DecidableEq

/-- generatePkceParams of auth/oauth.ts: the source reuses the random
verifier directly as the challenge (its documented S256 defect), so given
the generated random string both components equal it. -/
def generatePkceParams (codeVerifier : List Char) : List Char × List Char :=
  (codeVerifier, codeVerifier)

/-- exchangeCodeForToken of auth/oauth.ts, applied to the token-endpoint
response of its fetch: a non-ok response raises an AUTHENTICATION error,
otherwise the AuthToken is built from the JSON fields, with expiresAt equal
to now plus expires_in (default 3600) and refresh_token copied as is. -/
def exchangeCodeForToken (now : Int) (resp : TokenResponse) : Except UserError AuthToken :=
  if !resp.ok then
    .error { message := "Failed to exchange code for token: ".toList ++ resp.errorText,
             category := .AUTHENTICATION }
  else
    .ok { accessToken := resp.access_token,
          refreshToken := resp.refresh_token,
          expiresAt := now + jsOrInt resp.expires_in 3600,
          tokenType := jsOrStr resp.token_type "Bearer".toList,
          scope := jsOrStr resp.scope [] }

/-- The error thrown by performOAuthFlow when the callback state differs
from the generated nonce: createUserError with category AUTHENTICATION. -/
def oauthStateMismatchError : UserError :=
  { message := "OAuth state mismatch. Authentication may have been tampered with".toList,
    category := .AUTHENTICATION }

/-- The try body of performOAuthFlow from the state-verification step on,
given the generated state nonce, the callback query parameters and the
token-endpoint response.  The second component counts how many times
exchangeCodeForToken is invoked in this flow invocation. -/
def performOAuthFlowBody (state : List Char) (cb : CallbackResult) (now : Int)
    (exchResp : TokenResponse) : Except UserError AuthToken × Nat :=
  if state ≠ cb.receivedState then
    (.error oauthStateMismatchError, 0)
  else
    (exchangeCodeForToken now exchResp, 1)

/-- performOAuthFlow of auth/oauth.ts: the try body above wrapped in the
catch that turns any raised error into an unsuccessful AuthResult carrying
the error message and the FAILED state. -/
def performOAuthFlow (state : List Char) (cb : CallbackResult) (now : Int)
    (exchResp : TokenResponse) : AuthResult × Nat :=
  match performOAuthFlowBody state cb now exchResp with
  | (.ok token, k) =>
      ({ success := true, method? := some .OAUTH, token? := some token,
         state := .AUTHENTICATED }, k)
  | (.error e, k) =>
      ({ success := false, method? := some .OAUTH, error? := some e.message,
         state := .FAILED }, k)

/-- The try body of refreshOAuthToken of auth/oauth.ts, applied to the
token-endpoint response of its fetch: on success the new AuthToken reuses
the original refresh token whenever the response carries no truthy
refresh_token field. -/
def refreshOAuthTokenAttempt (now : Int) (refreshToken : List Char)
    (resp : TokenResponse) : Except UserError AuthToken :=
  if !resp.ok then
    .error { message := "Failed to refresh token: ".toList ++ resp.errorText,
             category := .AUTHENTICATION }
  else
    .ok { accessToken := resp.access_token,
          refreshToken := some (jsOrStr resp.refresh_token refreshToken),
          expiresAt := now + jsOrInt resp.expires_in 3600,
          tokenType := jsOrStr resp.token_type "Bearer".toList,
          scope := jsOrStr resp.scope [] }

/-- The error rethrown by the catch of refreshOAuthToken: createUserError
with category AUTHENTICATION. -/
def refreshFailedError : UserError :=
  { message := "Failed to refresh authentication token".toList,
    category := .AUTHENTICATION }

/-- refreshOAuthToken of auth/oauth.ts: the attempt above wrapped in the
catch that rethrows every failure as a fresh AUTHENTICATION error. -/
def refreshOAuthToken (now : Int) (refreshToken : List Char)
    (resp : TokenResponse) : Except UserError AuthToken :=
  match refreshOAuthTokenAttempt now refreshToken resp with
  | .ok token => .ok token
  | .error _ => .error refreshFailedError

/-! ### utils/async.ts, withRetry

The wrapped operation is modelled as a function from the invocation index
(0 for the initial attempt, k for the k-th retry) to its outcome; each
attempt of the loop performs exactly one invocation.  The observable side
effects of an execution are recorded as a trace of events: operation calls,
sleeps and onRetry callbacks.  The jittered sleep durations come from
Math.random, so a sleep event records only the attempt it belongs to. -/

/-- One observable event of a withRetry execution. -/
inductive REv (E : Type) where
  | call (attempt : Nat)
  | sleep (attempt : Nat)
  | onRetry (e : E) (attempt : Nat)
deriving Repr, DecidableEq

/-- The retry options of utils/async.ts that influence control flow and the
event trace; the delay fields only scale the jittered sleep durations and
are not recorded in events. -/
structure RetryOptions (E : Type) where
  maxRetries : Nat
  isRetryable : Option (E → Bool) := none
  onRetryPresent : Bool := true

/-- The attempt loop of withRetry in utils/async.ts.  fuel counts the loop
iterations still permitted (the loop runs for attempt = 0 up to maxRetries);
lastErr is the lastError variable.  Each iteration emits, for attempt 0,
just the call, and for a retry the sleep, then the onRetry callback when one
is installed, then the call - in source order. -/
def retryAux (op : Nat → Except E A) (retryable : Option (E → Bool))
    (onRetryPresent : Bool) (maxRetries : Nat) :
    Nat → Nat → E → List (REv E) × Except E A
  | 0, _, lastErr => ([], .error lastErr)
  | fuel + 1, attempt, lastErr =>
    let pre : List (REv E) :=
      if attempt = 0 then
        [.call 0]
      else
        .sleep attempt ::
          ((if onRetryPresent then [.onRetry lastErr attempt] else []) ++ [.call attempt])
    match op attempt with
    | .ok a => (pre, .ok a)
    | .error e =>
        if maxRetries ≤ attempt then
          (pre, .error e)
        else
          match retryable with
          | some p =>
              if p e then
                let r := retryAux op retryable onRetryPresent maxRetries fuel (attempt + 1) e
                (pre ++ r.1, r.2)
              else
                (pre, .error e)
          | none =>
              let r := retryAux op retryable onRetryPresent maxRetries fuel (attempt + 1) e
              (pre ++ r.1, r.2)

/-- withRetry of utils/async.ts: run the attempt loop from attempt 0 with
lastError initialised to the placeholder Unknown-error value. -/
def withRetry (op : Nat → Except E A) (opts : RetryOptions E) (initErr : E) :
    List (REv E) × Except E A :=
  retryAux op opts.isRetryable opts.onRetryPresent opts.maxRetries
    (opts.maxRetries + 1) 0 initErr

/-- Number of operation invocations recorded in a trace. -/
def callCount (tr : List (REv E)) : Nat :=
  (tr.filter fun ev => match ev with | .call _ => true | _ => false).length

/-- Number of onRetry callback invocations recorded in a trace. -/
def onRetryCount (tr : List (REv E)) : Nat :=
  (tr.filter fun ev => match ev with | .onRetry _ _ => true | _ => false).length

/-- Number of sleeps recorded in a trace. -/
def sleepCount (tr : List (REv E)) : Nat :=
  (tr.filter fun ev => match ev with | .sleep _ => true | _ => false).length

/-- The events of the retry numbered a when onRetry is installed: the sleep,
then the callback receiving the previous attempt's error and the attempt
number, then the retried invocation. -/
def retrySeg (es : Nat → E) (a : Nat) : List (REv E) :=
  [.sleep a, .onRetry (es (a - 1)) a, .call a]

/-- The trace of an execution whose initial call fails and whose retries
1 up to k follow, with the error of invocation j denoted es j. -/
def trailTrace (es : Nat → E) (k : Nat) : List (REv E) :=
  .call 0 :: (List.range' 1 k).flatMap (retrySeg es)

/-- An operation that fails on its first n invocations with the indicated
errors and then returns a on every later invocation. -/
def failNTimes (es : Nat → E) (a : A) (n : Nat) : Nat → Except E A :=
  fun k => if k < n then .error (es k) else .ok a

/-- The condition under which the isRetryable predicate of the options lets
an error through (an absent predicate lets every error through). -/
def retryableOk {E : Type u} (o : Option (E → Bool)) (e : E) : Bool :=
  match o with
  | none => true
  | some p => p e

/-! ### utils/async.ts, withConcurrency

The source spawns min(concurrency, items.length) workers; each worker loops,
atomically claims the next unclaimed index with currentIndex++, awaits the
per-item function on that index and writes the value into the output slot of
that index, failing the whole batch on a rejection.  The cooperative
interleaving of the workers is modelled by an explicit schedule: a list of
worker ids, each entry letting that worker take its next step (claim the next
index, finish, or complete its outstanding invocation).  A run settles like
Promise.all: the first per-item failure rejects the batch at once, and the
batch resolves to the results array when every worker has finished. -/

/-- The position of one worker of withConcurrency in its loop. -/
inductive WStatus where
  | idle
  | running (idx : Nat)
  | done
deriving Repr, DecidableEq

/-- Whether a worker has left its loop. -/
def isDoneW : WStatus → Bool
  | .done => true
  | _ => false

/-- The shared state of a withConcurrency run: the currentIndex counter, the
workers and the results array (none marks a slot not yet written). -/
structure CState (R : Type) where
  nextIndex : Nat
  workers : List WStatus
  results : List (Option R)
deriving Repr

/-- One step of worker w: an idle worker claims currentIndex++ while indices
remain and finishes otherwise; a worker holding index idx completes its
invocation, writing the value into slot idx or rejecting the batch with the
invocation's error.  A step of an unknown or finished worker changes
nothing. -/
def cstep (items : List T) (f : T → Nat → Except E R) (s : CState R) (w : Nat) :
    Except E (CState R) :=
  match s.workers[w]? with
  | none => .ok s
  | some .done => .ok s
  | some .idle =>
      if s.nextIndex < items.length then
        .ok { s with workers := s.workers.set w (.running s.nextIndex),
                     nextIndex := s.nextIndex + 1 }
      else
        .ok { s with workers := s.workers.set w .done }
  | some (.running idx) =>
      match items[idx]? with
      | none => .ok s
      | some item =>
          match f item idx with
          | .ok r => .ok { s with workers := s.workers.set w .idle,
                                  results := s.results.set idx (some r) }
          | .error e => .error e

/-- Run the workers under the given schedule.  The run yields the rejection
as soon as a step rejects; after the schedule it yields the results array
when every worker has finished, and none when the schedule stopped short. -/
def crun (items : List T) (f : T → Nat → Except E R) :
    CState R → List Nat → Option (Except E (List (Option R)))
  | s, [] => if s.workers.all isDoneW then some (.ok s.results) else none
  | s, w :: ws =>
      match cstep items f s w with
      | .error e => some (.error e)
      | .ok s' => crun items f s' ws

/-- withConcurrency of utils/async.ts: an empty input short-circuits to the
empty result; otherwise min(concurrency, items.length) idle workers start on
a fresh results array and run under the schedule. -/
def withConcurrency (items : List T) (f : T → Nat → Except E R) (concurrency : Nat)
    (schedule : List Nat) : Option (Except E (List (Option R))) :=
  if items.isEmpty then
    some (.ok [])
  else
    crun items f
      { nextIndex := 0,
        workers := List.replicate (min concurrency items.length) .idle,
        results := List.replicate items.length none }
      schedule

/-! ### auth/manager.ts

The AuthManager class of auth/manager.ts.  Its mutable fields (state,
currentToken, refreshTimer, and the in-memory token store behind the single
key used by the class) form MgrState.  Timers are modelled by the delay in
milliseconds the armed setTimeout was given; event emission has no effect on
any field and is omitted. -/

/-- The authentication-related configuration the AuthManager constructor
extracts. -/
structure ManagerConfig where
  apiKey : Option (List Char) := none
  preferredMethod : Option AuthMethod := none
  autoRefresh : Bool := true
  tokenRefreshThreshold : Int := 300
deriving Repr, DecidableEq

/-- The mutable fields of an auth/manager.ts AuthManager plus its token
store content under its single key. -/
structure MgrState where
  state : AuthStateEnum := .INITIAL
  currentToken : Option AuthToken := none
  refreshTimerMs : Option Int := none
  store : Option AuthToken := none
deriving Repr, DecidableEq

/-- An error value raised by manager code: either a structured user error or
a plain Error with only a message. -/
inductive JsError where
  | user (e : UserError)
  | plain (message : List Char)
deriving Repr, DecidableEq

/-- isAuthenticated of auth/manager.ts. -/
def mgrIsAuthenticated (s : MgrState) : Bool :=
  s.state = .AUTHENTICATED && s.currentToken.isSome

/-- getAuthorizationHeader of auth/manager.ts. -/
def mgrGetAuthorizationHeader (s : MgrState) : Option (List Char) :=
  match s.currentToken with
  | none => none
  | some tok => some (tok.tokenType ++ " ".toList ++ tok.accessToken)

/-- scheduleTokenRefresh of auth/manager.ts: always cancel any armed timer
first; arm nothing when no current token or no truthy refresh token is held;
otherwise arm a one-shot timer for max(0, (expiresAt - now) -
tokenRefreshThreshold) seconds, passed to setTimeout in milliseconds. -/
def scheduleTokenRefresh (cfg : ManagerConfig) (now : Int) (s : MgrState) : MgrState :=
  let s := { s with refreshTimerMs := none }
  match s.currentToken with
  | none => s
  | some tok =>
      if !optStrTruthy tok.refreshToken then
        s
      else
        let expiresIn := tok.expiresAt - now
        let refreshIn := max 0 (expiresIn - cfg.tokenRefreshThreshold)
        { s with refreshTimerMs := some (refreshIn * 1000) }

/-- refreshToken of auth/manager.ts, with the token-endpoint response of the
refreshOAuthToken call it performs passed in.  Without a truthy refresh token
it throws; otherwise it enters REFRESHING and either installs and persists
the new token, returns to AUTHENTICATED and re-schedules, or on failure
enters FAILED and rethrows - leaving currentToken and the store untouched. -/
def mgrRefreshToken (cfg : ManagerConfig) (now : Int) (resp : TokenResponse)
    (s : MgrState) : MgrState × Except JsError Unit :=
  match s.currentToken with
  | none => (s, .error (.plain "No refresh token available".toList))
  | some tok =>
      if !optStrTruthy tok.refreshToken then
        (s, .error (.plain "No refresh token available".toList))
      else
        let s := { s with state := .REFRESHING }
        match refreshOAuthToken now (tok.refreshToken.getD []) resp with
        | .ok newToken =>
            let s := { s with currentToken := some newToken, store := some newToken,
                              state := .AUTHENTICATED }
            let s := if cfg.autoRefresh then scheduleTokenRefresh cfg now s else s
            (s, .ok ())
        | .error e =>
            ({ s with state := .FAILED }, .error (.user e))

/-- authenticateWithApiKey of auth/manager.ts: with a truthy configured key
it succeeds with a Bearer token whose expiresAt is Number.MAX_SAFE_INTEGER
and which carries no refresh token; otherwise it reports failure. -/
def mgrAuthenticateWithApiKey (cfg : ManagerConfig) : AuthResult :=
  match cfg.apiKey with
  | none =>
      { success := false, error? := some "No API key available".toList, state := .FAILED }
  | some apiKey =>
      if apiKey.isEmpty then
        { success := false, error? := some "No API key available".toList, state := .FAILED }
      else
        { success := true, method? := some .API_KEY,
          token? := some { accessToken := apiKey, expiresAt := 9007199254740991,
                           tokenType := "Bearer".toList, scope := "all".toList },
          state := .AUTHENTICATED }

/-- authenticate of auth/manager.ts: resolve the method (argument, then
configured preference, then presence of a static API key), enter
AUTHENTICATING, delegate (the OAuth path's flow result is an input), and on
success persist the token, enter AUTHENTICATED and schedule a refresh when
autoRefresh is on and the token is refreshable; otherwise enter FAILED. -/
def mgrAuthenticate (cfg : ManagerConfig) (now : Int) (method? : Option AuthMethod)
    (oauthResult : AuthResult) (s : MgrState) : MgrState × AuthResult :=
  let authMethod :=
    match method? with
    | some m => m
    | none =>
        match cfg.preferredMethod with
        | some m => m
        | none => if optStrTruthy cfg.apiKey then .API_KEY else .OAUTH
  let s := { s with state := .AUTHENTICATING }
  let result :=
    if authMethod = .API_KEY then mgrAuthenticateWithApiKey cfg else oauthResult
  match result.token? with
  | some token =>
      if result.success then
        let s := { s with currentToken := some token, store := some token,
                          state := .AUTHENTICATED }
        let s :=
          if cfg.autoRefresh && optStrTruthy token.refreshToken then
            scheduleTokenRefresh cfg now s
          else s
        (s, result)
      else
        ({ s with state := .FAILED }, result)
  | none => ({ s with state := .FAILED }, result)

/-- logout of auth/manager.ts: cancel the refresh timer, delete the stored
token, clear the held token and return to INITIAL. -/
def mgrLogout (s : MgrState) : MgrState :=
  { s with refreshTimerMs := none, store := none, currentToken := none, state := .INITIAL }

/-! ### auth/index.ts

The AuthManager class of auth/index.ts, whose state is the AuthState record
of that file plus its token store content under its single storage key. -/

/-- The AuthState record of auth/index.ts together with the store content. -/
structure IdxState where
  initialized : Bool := false
  authenticated : Bool := false
  token : Option AuthToken := none
  method : Option AuthMethod := none
  lastError : Option (List Char) := none
  store : Option AuthToken := none
deriving Repr, DecidableEq

/-- The error thrown by authenticateWithApiKey of auth/index.ts on a
malformed key: createUserError with category AUTHENTICATION. -/
def apiKeyFormatError : UserError :=
  { message := "Invalid API key format".toList, category := .AUTHENTICATION }

/-- isAuthenticated of auth/index.ts. -/
def idxIsAuthenticated (s : IdxState) : Bool :=
  s.authenticated && s.token.isSome

/-- authenticateWithApiKey of auth/index.ts: a falsy key or one whose
trimmed length is below 10 raises apiKeyFormatError, which the catch turns
into a failed result after recording the error and clearing the held token;
a valid key yields a never-expiring Bearer token without refresh token,
saves it and marks the state authenticated. -/
def idxAuthenticateWithApiKey (apiKey : List Char) (s : IdxState) : IdxState × AuthResult :=
  if !strTruthy apiKey || (jsTrim apiKey).length < 10 then
    let e := apiKeyFormatError
    ({ s with lastError := some e.message, authenticated := false, token := none },
     { success := false, error? := some e.message, method? := some .API_KEY,
       state := .FAILED })
  else
    let token : AuthToken :=
      { accessToken := apiKey, expiresAt := 0, tokenType := "Bearer".toList,
        scope := "anthropic.api".toList }
    ({ s with store := some token, token := some token, authenticated := true,
              method := some .API_KEY },
     { success := true, token? := some token, method? := some .API_KEY,
       state := .AUTHENTICATED })

/-- refreshToken of auth/index.ts, with the token-endpoint response of its
refreshOAuthToken call passed in: without a truthy refresh token it returns
false; on success it installs and saves the new token and returns true; on
failure it records the error, clears the token from memory and from the
store, marks the state unauthenticated and returns false. -/
def idxRefreshToken (now : Int) (resp : TokenResponse) (s : IdxState) : IdxState × Bool :=
  match s.token with
  | none => (s, false)
  | some tok =>
      match tok.refreshToken with
      | none => (s, false)
      | some rt =>
          if rt.isEmpty then
            (s, false)
          else
            match refreshOAuthToken now rt resp with
            | .ok newToken =>
                ({ s with token := some newToken, store := some newToken }, true)
            | .error e =>
                ({ s with lastError := some e.message, token := none,
                          authenticated := false, store := none }, false)

/-- logout of auth/index.ts. -/
def idxLogout (s : IdxState) : IdxState :=
  { s with token := none, authenticated := false, method := none, store := none }

/-! ### Sample values used by concrete evaluations -/

/-- A refreshable OAuth credential. -/
def sampleRefreshableToken : AuthToken :=
  { accessToken := "at".toList, refreshToken := some "rt".toList, expiresAt := 1000,
    tokenType := "Bearer".toList, scope := [] }

/-- An authenticated auth/manager.ts state holding the refreshable credential
in memory and in the store. -/
def sampleMgrState : MgrState :=
  { state := .AUTHENTICATED, currentToken := some sampleRefreshableToken,
    refreshTimerMs := none, store := some sampleRefreshableToken }

/-- A token-endpoint response refusing a refresh with invalid_grant. -/
def invalidGrantResponse : TokenResponse :=
  { ok := false, errorText := "invalid_grant".toList }

/-- A static API-key credential as stored by auth/index.ts. -/
def sampleApiKeyToken : AuthToken :=
  { accessToken := "oldkey-123456".toList, expiresAt := 0,
    tokenType := "Bearer".toList, scope := "anthropic.api".toList }

/-- An authenticated auth/index.ts state holding the API-key credential. -/
def sampleIdxState : IdxState :=
  { authenticated := true, token := some sampleApiKeyToken,
    store := some sampleApiKeyToken }

/-- A credential whose access token has only four characters. -/
def sampleFourCharToken : AuthToken :=
  { accessToken := "abcd".toList, expiresAt := 0,
    tokenType := "Bearer".toList, scope := [] }

/-- Invariant of a withConcurrency run: the claim counter stays within the
input, the results array keeps its size, every written slot holds the value
its own invocation produced, every claimed index is either written or held
by a worker, workers only hold already-claimed indices, and a finished
worker certifies that every index has been claimed. -/
structure CInv (items : List T) (f : T → Nat → Except E R) (s : CState R) : Prop where
  nextLe : s.nextIndex ≤ items.length
  resLen : s.results.length = items.length
  resOk : ∀ (i : Nat) (r : R), s.results[i]? = some (some r) →
    ∃ item, items[i]? = some item ∧ f item i = .ok r
  claimed : ∀ i : Nat, i < s.nextIndex →
    (∃ r, s.results[i]? = some (some r)) ∨
      ∃ w : Nat, s.workers[w]? = some (WStatus.running i)
  runLt : ∀ (w idx : Nat), s.workers[w]? = some (WStatus.running idx) →
    idx < s.nextIndex
  doneNext : ∀ w : Nat, s.workers[w]? = some WStatus.done →
    s.nextIndex = items.length

/-! ## Theorems -/

/-- A list started with itself followed by anything passes startsWithList. -/
theorem startsWithList_append (p s : List Char) : startsWithList (p ++ s) p = true := by
  induction p with
  | nil => simp [startsWithList]
  | cons c cs ih => simp [startsWithList, ih]

/-- C1: whenever the state delivered to the OAuth callback differs from the
nonce generated at the start of the flow, performOAuthFlow raises the
AUTHENTICATION-category state-mismatch error, returns an unsuccessful result
in the FAILED state, and exchangeCodeForToken is invoked zero times in that
flow invocation. -/
theorem c1_state_mismatch_never_exchanges (st : List Char) (cb : CallbackResult)
    (now : Int) (resp : TokenResponse) (h : cb.receivedState ≠ st) :
    performOAuthFlowBody st cb now resp = (.error oauthStateMismatchError, 0) ∧
    oauthStateMismatchError.category = .AUTHENTICATION ∧
    (performOAuthFlow st cb now resp).1.success = false ∧
    (performOAuthFlow st cb now resp).1.state = .FAILED ∧
    (performOAuthFlow st cb now resp).2 = 0 := by
  have h' : st ≠ cb.receivedState := Ne.symm h
  refine ⟨?_, rfl, ?_, ?_, ?_⟩ <;>
    simp [performOAuthFlow, performOAuthFlowBody, h']

/-- Witness for C1 at a concrete tampered callback. -/
theorem c1_witness :
    ("other".toList ≠ "nonce".toList) ∧
    (performOAuthFlow "nonce".toList { code := "c".toList, receivedState := "other".toList }
      0 { ok := true }).2 = 0 := by
  refine ⟨by decide, ?_⟩
  exact (c1_state_mismatch_never_exchanges "nonce".toList
    { code := "c".toList, receivedState := "other".toList } 0 { ok := true }
    (by decide)).2.2.2.2

/-- C6: a successful refresh-token exchange keeps the original refresh token
when the response carries none and adopts the response's refresh token when
a non-empty one is present. -/
theorem c6_refresh_token_rotation (now : Int) (orig : List Char)
    (resp : TokenResponse) (hok : resp.ok = true) :
    ∃ tok, refreshOAuthToken now orig resp = .ok tok ∧
      (resp.refresh_token = none → tok.refreshToken = some orig) ∧
      (∀ s, resp.refresh_token = some s → s.isEmpty = false →
        tok.refreshToken = some s) := by
  refine ⟨{ accessToken := resp.access_token,
            refreshToken := some (jsOrStr resp.refresh_token orig),
            expiresAt := now + jsOrInt resp.expires_in 3600,
            tokenType := jsOrStr resp.token_type "Bearer".toList,
            scope := jsOrStr resp.scope [] }, ?_, ?_, ?_⟩
  · simp [refreshOAuthToken, refreshOAuthTokenAttempt, hok]
  · intro hn
    simp [hn, jsOrStr]
  · intro s hs hse
    simp [hs, jsOrStr, hse]

/-- Witness for C6 at a response without and a response with a rotated
refresh token. -/
theorem c6_witness :
    (∃ tok, refreshOAuthToken 50 "orig".toList { ok := true, access_token := "a".toList }
        = .ok tok ∧ tok.refreshToken = some "orig".toList) ∧
    (∃ tok, refreshOAuthToken 50 "orig".toList
        { ok := true, access_token := "a".toList, refresh_token := some "rot".toList }
        = .ok tok ∧ tok.refreshToken = some "rot".toList) := by
  constructor
  · obtain ⟨tok, h1, h2, _⟩ :=
      c6_refresh_token_rotation 50 "orig".toList { ok := true, access_token := "a".toList } rfl
    exact ⟨tok, h1, h2 rfl⟩
  · obtain ⟨tok, h1, _, h3⟩ :=
      c6_refresh_token_rotation 50 "orig".toList
        { ok := true, access_token := "a".toList, refresh_token := some "rot".toList } rfl
    exact ⟨tok, h1, h3 "rot".toList rfl rfl⟩

/-- C8: scheduleTokenRefresh arms a timer of max(0, (expiresAt - now) -
tokenRefreshThreshold) seconds (in milliseconds) exactly when a current
token with a truthy refresh token is held; a static credential never arms a
timer regardless of expiresAt; and the previously armed timer is cancelled
first, so the outcome is independent of it. -/
theorem c8_refresh_scheduling (cfg : ManagerConfig) (now : Int) (s : MgrState) :
    (∀ tok, s.currentToken = some tok → optStrTruthy tok.refreshToken = true →
      (scheduleTokenRefresh cfg now s).refreshTimerMs =
        some (max 0 (tok.expiresAt - now - cfg.tokenRefreshThreshold) * 1000)) ∧
    (∀ tok, s.currentToken = some tok → optStrTruthy tok.refreshToken = false →
      (scheduleTokenRefresh cfg now s).refreshTimerMs = none) ∧
    (s.currentToken = none → (scheduleTokenRefresh cfg now s).refreshTimerMs = none) ∧
    (∀ t₀, scheduleTokenRefresh cfg now { s with refreshTimerMs := t₀ } =
      scheduleTokenRefresh cfg now s) := by
  refine ⟨?_, ?_, ?_, ?_⟩
  · intro tok htok htr
    simp [scheduleTokenRefresh, htok, htr]
  · intro tok htok htr
    simp [scheduleTokenRefresh, htok, htr]
  · intro htok
    simp [scheduleTokenRefresh, htok]
  · intro t₀
    rfl

/-- Witness for C8: a refreshable credential arms the computed delay and an
API-key credential arms nothing. -/
theorem c8_witness :
    (scheduleTokenRefresh { tokenRefreshThreshold := 300 } 0 sampleMgrState).refreshTimerMs
      = some 700000 ∧
    (scheduleTokenRefresh { tokenRefreshThreshold := 300 } 0
      { sampleMgrState with currentToken := some sampleApiKeyToken }).refreshTimerMs
      = none := by
  constructor
  · have h := (c8_refresh_scheduling { tokenRefreshThreshold := 300 } 0 sampleMgrState).1
      sampleRefreshableToken rfl (by decide)
    simpa using h
  · exact (c8_refresh_scheduling { tokenRefreshThreshold := 300 } 0
      { sampleMgrState with currentToken := some sampleApiKeyToken }).2.1
      sampleApiKeyToken rfl (by decide)

/-- C10: for a Bearer token whose access token carries no surrounding
whitespace, extracting from the created authorization header returns exactly
the access token, and extracting from the empty header returns null. -/
theorem c10_header_round_trip (tok : AuthToken)
    (hb : tok.tokenType = "Bearer".toList)
    (ht : jsTrim tok.accessToken = tok.accessToken) :
    extractTokenFromHeader (createAuthorizationHeader tok) = some tok.accessToken ∧
    extractTokenFromHeader [] = none := by
  constructor
  · have hB : "Bearer ".toList = ['B', 'e', 'a', 'r', 'e', 'r', ' '] := rfl
    have hdr : createAuthorizationHeader tok =
        ['B', 'e', 'a', 'r', 'e', 'r', ' '] ++ tok.accessToken := by
      unfold createAuthorizationHeader
      rw [hb]
      rfl
    have hlen : (['B', 'e', 'a', 'r', 'e', 'r', ' '] : List Char).length = 7 := rfl
    rw [hdr]
    unfold extractTokenFromHeader
    rw [hB, startsWithList_append]
    simp [← hlen, List.drop_left, ht]
  · rfl

/-- For a string longer than 8 characters, substring(0, 4) takes the first
four characters. -/
theorem jsSubstring_first_four (s : List Char) (h : 8 < s.length) :
    jsSubstring s 0 (some 4) = s.take 4 := by
  have hc : (8 : Int) < (s.length : Int) := by exact_mod_cast h
  unfold jsSubstring
  simp only []
  have hHi : (max (min (max (0 : Int) 0) (s.length : Int))
      (min (max (4 : Int) 0) (s.length : Int))).toNat = 4 := by omega
  have hLo : (min (min (max (0 : Int) 0) (s.length : Int))
      (min (max (4 : Int) 0) (s.length : Int))).toNat = 0 := by omega
  rw [hHi, hLo]
  simp

/-- For a string longer than 8 characters, substring(length - 4) takes the
last four characters. -/
theorem jsSubstring_last_four (s : List Char) (h : 8 < s.length) :
    jsSubstring s ((s.length : Int) - 4) none = s.drop (s.length - 4) := by
  have hc : (8 : Int) < (s.length : Int) := by exact_mod_cast h
  unfold jsSubstring
  simp only []
  have hHi : (max (min (max ((s.length : Int) - 4) 0) (s.length : Int))
      (s.length : Int)).toNat = s.length := by omega
  have hLo : (min (min (max ((s.length : Int) - 4) 0) (s.length : Int))
      (s.length : Int)).toNat = s.length - 4 := by omega
  rw [hHi, hLo]
  simp

/-- C9 counterexample: for the four-character access token abcd, the
masked entry of getTokenDetails is abcd...abcd - it begins with the complete
access token, so the full token value is revealed rather than masked. -/
theorem c9_counterexample :
    (getTokenDetails 0 (fun _ => []) sampleFourCharToken).accessToken =
      some "abcd...abcd".toList ∧
    startsWithList "abcd...abcd".toList sampleFourCharToken.accessToken = true := by
  decide

/-- C9 amended: for every access token longer than 8 characters, the masked
entry of getTokenDetails is exactly the first four characters, an ellipsis
and the last four characters, and those shown characters are strictly fewer
than the token's characters; tokens of at most 8 characters (see the
counterexample) have every character shown. -/
theorem c9_masking_amended (now : Int) (fmtDate : Int → List Char) (tok : AuthToken)
    (h : 8 < tok.accessToken.length) :
    (getTokenDetails now fmtDate tok).accessToken =
      some (tok.accessToken.take 4 ++ "...".toList ++
        tok.accessToken.drop (tok.accessToken.length - 4)) ∧
    (tok.accessToken.take 4).length = 4 ∧
    (tok.accessToken.drop (tok.accessToken.length - 4)).length = 4 ∧
    (tok.accessToken.take 4 ++ tok.accessToken.drop (tok.accessToken.length - 4)).length
      < tok.accessToken.length := by
  have hne : tok.accessToken.isEmpty = false := by
    cases hAcc : tok.accessToken with
    | nil => rw [hAcc] at h; simp at h
    | cons c cs => simp
  refine ⟨?_, ?_, ?_, ?_⟩
  · simp only [getTokenDetails, strTruthy, hne, Bool.not_false, if_true,
      jsSubstring_first_four tok.accessToken h, jsSubstring_last_four tok.accessToken h]
  · simp
    omega
  · simp
    omega
  · simp
    omega

/-- Witness for C9 at a twelve-character access token. -/
theorem c9_witness :
    (getTokenDetails 0 (fun _ => [])
      { accessToken := "abcdefghijkl".toList, expiresAt := 0,
        tokenType := "Bearer".toList, scope := [] }).accessToken =
      some "abcd...ijkl".toList := by
  have h := (c9_masking_amended 0 (fun _ => [])
    { accessToken := "abcdefghijkl".toList, expiresAt := 0,
      tokenType := "Bearer".toList, scope := [] } (by decide)).1
  exact h.trans (by decide)

/-- C5 counterexample: a short API key fails with the
AUTHENTICATION-category error (not VALIDATION), and the previously held
in-memory Credential is wiped by the failed attempt rather than untouched. -/
theorem c5_counterexample :
    (idxAuthenticateWithApiKey "short".toList sampleIdxState).2.success = false ∧
    (idxAuthenticateWithApiKey "short".toList sampleIdxState).2.error? =
      some apiKeyFormatError.message ∧
    apiKeyFormatError.category = .AUTHENTICATION ∧
    apiKeyFormatError.category ≠ .VALIDATION ∧
    sampleIdxState.token = some sampleApiKeyToken ∧
    (idxAuthenticateWithApiKey "short".toList sampleIdxState).1.token = none := by
  decide

/-- C5 amended: for every API key whose trimmed length is below 10,
authenticateWithApiKey of auth/index.ts fails with the
AUTHENTICATION-category Invalid-API-key-format error; nothing is written to
the token store (a previously stored credential stays); but the in-memory
state does change: the held credential is cleared and the authenticated flag
is dropped. -/
theorem c5_short_key_amended (apiKey : List Char) (s : IdxState)
    (h : (jsTrim apiKey).length < 10) :
    (idxAuthenticateWithApiKey apiKey s).2.success = false ∧
    (idxAuthenticateWithApiKey apiKey s).2.error? = some apiKeyFormatError.message ∧
    apiKeyFormatError.category = .AUTHENTICATION ∧
    (idxAuthenticateWithApiKey apiKey s).1.store = s.store ∧
    (idxAuthenticateWithApiKey apiKey s).1.token = none ∧
    (idxAuthenticateWithApiKey apiKey s).1.authenticated = false := by
  simp [idxAuthenticateWithApiKey, h, apiKeyFormatError]

/-- Witness for C5 at the concrete short key. -/
theorem c5_witness :
    (jsTrim "short".toList).length < 10 ∧
    (idxAuthenticateWithApiKey "short".toList sampleIdxState).1.token = none := by
  refine ⟨by decide, ?_⟩
  exact (c5_short_key_amended "short".toList sampleIdxState (by decide)).2.2.2.2.1

/-- C4 counterexample: the API-key path of auth/manager.ts yields a
Credential whose expiresAt is Number.MAX_SAFE_INTEGER, not 0. -/
theorem c4_counterexample :
    ((mgrAuthenticateWithApiKey
        { apiKey := some "sk-ant-0123456789".toList }).token?.map AuthToken.expiresAt)
      = some 9007199254740991 ∧
    (9007199254740991 : Int) ≠ 0 := by
  decide

/-- C4 amended: a valid API key of sufficient length yields, through
authenticateWithApiKey of auth/index.ts, a successful result whose
Credential has no refresh token and expiresAt = 0, and isAuthenticated
becomes true; the API-key path of auth/manager.ts likewise succeeds with a
refresh-token-free Credential and makes isAuthenticated true, but sets
expiresAt = Number.MAX_SAFE_INTEGER (also meaning never expires) instead
of 0. -/
theorem c4_api_key_amended :
    (∀ (apiKey : List Char) (s : IdxState), strTruthy apiKey = true →
      ¬ (jsTrim apiKey).length < 10 →
      (idxAuthenticateWithApiKey apiKey s).2.success = true ∧
      ((idxAuthenticateWithApiKey apiKey s).2.token?.map AuthToken.refreshToken)
        = some none ∧
      ((idxAuthenticateWithApiKey apiKey s).2.token?.map AuthToken.expiresAt) = some 0 ∧
      idxIsAuthenticated (idxAuthenticateWithApiKey apiKey s).1 = true) ∧
    (∀ (cfg : ManagerConfig) (now : Int) (s : MgrState) (oauthResult : AuthResult)
      (key : List Char), cfg.apiKey = some key → key ≠ [] →
      (mgrAuthenticate cfg now (some .API_KEY) oauthResult s).2.success = true ∧
      ((mgrAuthenticate cfg now (some .API_KEY) oauthResult s).2.token?.map
        AuthToken.refreshToken) = some none ∧
      ((mgrAuthenticate cfg now (some .API_KEY) oauthResult s).2.token?.map
        AuthToken.expiresAt) = some 9007199254740991 ∧
      mgrIsAuthenticated (mgrAuthenticate cfg now (some .API_KEY) oauthResult s).1
        = true) := by
  constructor
  · intro apiKey s htr hlen
    have hne : apiKey ≠ [] := by
      intro he
      rw [he] at htr
      simp [strTruthy] at htr
    simp [idxAuthenticateWithApiKey, strTruthy, htr, hlen, hne, idxIsAuthenticated]
  · intro cfg now s oauthResult key hkey hne
    have hk : key.isEmpty = false := by
      cases key with
      | nil => exact absurd rfl hne
      | cons c cs => simp
    simp [mgrAuthenticate, mgrAuthenticateWithApiKey, hkey, hk,
      mgrIsAuthenticated, optStrTruthy]

/-- Witness for C4 at a concrete valid key on both managers. -/
theorem c4_witness :
    ((idxAuthenticateWithApiKey "sk-ant-0123456789".toList {}).2.token?.map
      AuthToken.expiresAt) = some 0 ∧
    ((mgrAuthenticate { apiKey := some "sk-ant-0123456789".toList } 0 (some .API_KEY)
      { success := false, state := .FAILED } {}).2.token?.map AuthToken.expiresAt)
      = some 9007199254740991 := by
  constructor
  · exact (c4_api_key_amended.1 "sk-ant-0123456789".toList {} (by decide)
      (by decide)).2.2.1
  · exact (c4_api_key_amended.2 { apiKey := some "sk-ant-0123456789".toList } 0 {}
      { success := false, state := .FAILED } "sk-ant-0123456789".toList rfl
      (by decide)).2.2.1

/-- C3 counterexample: an invalid_grant refresh failure in auth/manager.ts
moves the manager to FAILED (so isAuthenticated is false) but the Credential
stays in memory and in the token store - it is not cleared. -/
theorem c3_counterexample :
    (mgrRefreshToken {} 0 invalidGrantResponse sampleMgrState).1.state = .FAILED ∧
    (mgrRefreshToken {} 0 invalidGrantResponse sampleMgrState).1.currentToken =
      some sampleRefreshableToken ∧
    (mgrRefreshToken {} 0 invalidGrantResponse sampleMgrState).1.store =
      some sampleRefreshableToken ∧
    mgrIsAuthenticated (mgrRefreshToken {} 0 invalidGrantResponse sampleMgrState).1
      = false := by
  decide

/-- C3 amended: on an unrecoverable refresh failure the auth/manager.ts
manager transitions to FAILED and rethrows the AUTHENTICATION error, making
isAuthenticated false, but keeps the stale Credential in memory and in the
token store; the auth/index.ts manager clears the Credential from memory
and from the token store and drops the authenticated flag (isAuthenticated
false, refreshToken() returns false), but has no FAILED state - it records
the error in lastError instead. -/
theorem c3_refresh_failure_amended :
    (∀ (cfg : ManagerConfig) (now : Int) (resp : TokenResponse) (s : MgrState)
      (tok : AuthToken), s.currentToken = some tok →
      optStrTruthy tok.refreshToken = true → resp.ok = false →
      (mgrRefreshToken cfg now resp s).1.state = .FAILED ∧
      (mgrRefreshToken cfg now resp s).1.currentToken = s.currentToken ∧
      (mgrRefreshToken cfg now resp s).1.store = s.store ∧
      mgrIsAuthenticated (mgrRefreshToken cfg now resp s).1 = false ∧
      (mgrRefreshToken cfg now resp s).2 = .error (.user refreshFailedError) ∧
      refreshFailedError.category = .AUTHENTICATION) ∧
    (∀ (now : Int) (resp : TokenResponse) (s : IdxState) (tok : AuthToken),
      s.token = some tok → optStrTruthy tok.refreshToken = true → resp.ok = false →
      (idxRefreshToken now resp s).1.token = none ∧
      (idxRefreshToken now resp s).1.store = none ∧
      (idxRefreshToken now resp s).1.authenticated = false ∧
      idxIsAuthenticated (idxRefreshToken now resp s).1 = false ∧
      (idxRefreshToken now resp s).2 = false ∧
      (idxRefreshToken now resp s).1.lastError = some refreshFailedError.message) := by
  constructor
  · intro cfg now resp s tok htok htr hko
    cases hrt : tok.refreshToken with
    | none => rw [hrt] at htr; simp [optStrTruthy] at htr
    | some rt =>
        simp [mgrRefreshToken, htok, hrt, optStrTruthy, strTruthy] at htr ⊢
        simp [refreshOAuthToken, refreshOAuthTokenAttempt, hko, htr,
          mgrIsAuthenticated, refreshFailedError]
  · intro now resp s tok htok htr hko
    cases hrt : tok.refreshToken with
    | none => rw [hrt] at htr; simp [optStrTruthy] at htr
    | some rt =>
        rw [hrt] at htr
        simp [optStrTruthy, strTruthy] at htr
        simp [idxRefreshToken, htok, hrt, htr,
          refreshOAuthToken, refreshOAuthTokenAttempt, hko, idxIsAuthenticated]

/-- Witness for C3 on the concrete invalid_grant scenario on both managers. -/
theorem c3_witness :
    mgrIsAuthenticated (mgrRefreshToken {} 0 invalidGrantResponse sampleMgrState).1
      = false ∧
    (idxRefreshToken 0 invalidGrantResponse
      { sampleIdxState with token := some sampleRefreshableToken }).1.token = none := by
  constructor
  · exact (c3_refresh_failure_amended.1 {} 0 invalidGrantResponse sampleMgrState
      sampleRefreshableToken rfl (by decide) rfl).2.2.2.1
  · exact (c3_refresh_failure_amended.2 0 invalidGrantResponse
      { sampleIdxState with token := some sampleRefreshableToken }
      sampleRefreshableToken rfl (by decide) rfl).1

/-- Witness for C10 at a concrete Bearer token. -/
theorem c10_witness :
    ({ accessToken := "tok-12345".toList, expiresAt := 0, tokenType := "Bearer".toList,
       scope := [] } : AuthToken).tokenType = "Bearer".toList ∧
    extractTokenFromHeader (createAuthorizationHeader
      { accessToken := "tok-12345".toList, expiresAt := 0, tokenType := "Bearer".toList,
        scope := [] }) = some "tok-12345".toList := by
  refine ⟨rfl, ?_⟩
  exact (c10_header_round_trip
    { accessToken := "tok-12345".toList, expiresAt := 0, tokenType := "Bearer".toList,
      scope := [] } rfl (by decide)).1

/-- callCount distributes over appended traces. -/
theorem callCount_append (l1 l2 : List (REv E)) :
    callCount (l1 ++ l2) = callCount l1 + callCount l2 := by
  simp [callCount, List.filter_append]

/-- onRetryCount distributes over appended traces. -/
theorem onRetryCount_append (l1 l2 : List (REv E)) :
    onRetryCount (l1 ++ l2) = onRetryCount l1 + onRetryCount l2 := by
  simp [onRetryCount, List.filter_append]

/-- Each retry segment contributes one call. -/
theorem callCount_range'_retrySeg (es : Nat → E) (s k : Nat) :
    callCount ((List.range' s k).flatMap (retrySeg es)) = k := by
  induction k generalizing s with
  | zero => rfl
  | succ k ih =>
      rw [List.range'_succ]
      simp only [List.flatMap_cons, callCount_append, ih]
      simp [callCount, retrySeg]
      omega

/-- Each retry segment contributes one onRetry invocation. -/
theorem onRetryCount_range'_retrySeg (es : Nat → E) (s k : Nat) :
    onRetryCount ((List.range' s k).flatMap (retrySeg es)) = k := by
  induction k generalizing s with
  | zero => rfl
  | succ k ih =>
      rw [List.range'_succ]
      simp only [List.flatMap_cons, onRetryCount_append, ih]
      simp [onRetryCount, retrySeg]
      omega

/-- The trace of a run with k retries holds k + 1 calls. -/
theorem callCount_trailTrace (es : Nat → E) (k : Nat) :
    callCount (trailTrace es k) = k + 1 := by
  have h := callCount_range'_retrySeg es 1 k
  simp [trailTrace, callCount] at h ⊢
  omega

/-- The trace of a run with k retries holds k onRetry invocations. -/
theorem onRetryCount_trailTrace (es : Nat → E) (k : Nat) :
    onRetryCount (trailTrace es k) = k := by
  have h := onRetryCount_range'_retrySeg es 1 k
  simp [trailTrace, onRetryCount] at h ⊢
  omega

/-- Retry loop, success side: starting any retry attempt of a run against an
operation that fails on its first n invocations, with enough retries left to
reach invocation n, the loop returns the success value and its trace is the
retry segments from this attempt through attempt n. -/
theorem retryAux_tail_ok (es : Nat → E) (a : A) (n maxRetries : Nat)
    (retr : Option (E → Bool)) (hr : ∀ k, k < n → retryableOk retr (es k) = true)
    (hn : n ≤ maxRetries) :
    ∀ fuel attempt, attempt + fuel = maxRetries + 1 → 1 ≤ attempt → attempt ≤ n →
      retryAux (failNTimes es a n) retr true maxRetries fuel attempt (es (attempt - 1)) =
        ((List.range' attempt (n + 1 - attempt)).flatMap (retrySeg es), .ok a) := by
  intro fuel
  induction fuel with
  | zero =>
      intro attempt h1 h2 h3
      omega
  | succ fuel ih =>
      intro attempt h1 h2 h3
      have ha0 : ¬ attempt = 0 := by omega
      by_cases hlt : attempt < n
      · have hop : failNTimes es a n attempt = .error (es attempt) := by
          simp [failNTimes, hlt]
        have hmr : ¬ maxRetries ≤ attempt := by omega
        have hcount : n + 1 - attempt = (n - attempt) + 1 := by omega
        have hrec := ih (attempt + 1) (by omega) (by omega) (by omega)
        have hstep : attempt + 1 - 1 = attempt := by omega
        rw [hstep] at hrec
        cases hretr : retr with
        | none =>
            simp only [retryAux, ha0, if_false, hop, hmr, if_neg hmr]
            rw [hretr] at hrec
            simp only [hrec]
            rw [hcount, List.range'_succ]
            simp [retrySeg]
        | some p =>
            have hp : p (es attempt) = true := by
              have := hr attempt hlt
              rw [hretr] at this
              simpa [retryableOk] using this
            simp only [retryAux, ha0, if_false, hop, hmr, if_neg hmr, hp, if_pos]
            rw [hretr] at hrec
            simp only [hrec]
            rw [hcount, List.range'_succ]
            simp [retrySeg]
      · have heq : attempt = n := by omega
        have hop : failNTimes es a n attempt = .ok a := by
          simp [failNTimes, hlt]
        have hcount : n + 1 - attempt = 1 := by omega
        simp only [retryAux, ha0, if_false, hop]
        rw [hcount, heq]
        simp [retrySeg, List.range'_one, heq]

/-- Retry loop, exhaustion side: starting any retry attempt of a run against
an operation that fails on its first n invocations with n beyond maxRetries,
the loop rethrows the error of invocation maxRetries and its trace is the
retry segments from this attempt through attempt maxRetries. -/
theorem retryAux_tail_err (es : Nat → E) (a : A) (n maxRetries : Nat)
    (retr : Option (E → Bool)) (hr : ∀ k, k < n → retryableOk retr (es k) = true)
    (hn : maxRetries < n) :
    ∀ fuel attempt, attempt + fuel = maxRetries + 1 → 1 ≤ attempt → attempt ≤ maxRetries →
      retryAux (failNTimes es a n) retr true maxRetries fuel attempt (es (attempt - 1)) =
        ((List.range' attempt (maxRetries + 1 - attempt)).flatMap (retrySeg es),
          .error (es maxRetries)) := by
  intro fuel
  induction fuel with
  | zero =>
      intro attempt h1 h2 h3
      omega
  | succ fuel ih =>
      intro attempt h1 h2 h3
      have ha0 : ¬ attempt = 0 := by omega
      have hop : failNTimes es a n attempt = .error (es attempt) := by
        simp [failNTimes]
        omega
      by_cases hend : maxRetries ≤ attempt
      · have heq : attempt = maxRetries := by omega
        have hcount : maxRetries + 1 - attempt = 1 := by omega
        simp only [retryAux, ha0, if_false, hop, hend, if_pos]
        rw [hcount, heq]
        simp [retrySeg, List.range'_one, heq]
      · have hcount : maxRetries + 1 - attempt = (maxRetries - attempt) + 1 := by omega
        have hrec := ih (attempt + 1) (by omega) (by omega) (by omega)
        have hstep : attempt + 1 - 1 = attempt := by omega
        rw [hstep] at hrec
        cases hretr : retr with
        | none =>
            simp only [retryAux, ha0, if_false, hop, if_neg hend]
            rw [hretr] at hrec
            simp only [hrec]
            rw [hcount, List.range'_succ]
            simp [retrySeg]
        | some p =>
            have hp : p (es attempt) = true := by
              have := hr attempt (by omega)
              rw [hretr] at this
              simpa [retryableOk] using this
            simp only [retryAux, ha0, if_false, hop, if_neg hend, hp, if_pos]
            rw [hretr] at hrec
            simp only [hrec]
            rw [hcount, List.range'_succ]
            simp [retrySeg]

/-- withRetry against an operation failing n times then succeeding, with
n within maxRetries: the success value is returned and the trace is the
full trailTrace of n retries. -/
theorem withRetry_failNTimes_ok (es : Nat → E) (a : A) (n : Nat)
    (opts : RetryOptions E) (initErr : E) (hOn : opts.onRetryPresent = true)
    (hr : ∀ k, k < n → retryableOk opts.isRetryable (es k) = true)
    (hn : n ≤ opts.maxRetries) :
    withRetry (failNTimes es a n) opts initErr = (trailTrace es n, .ok a) := by
  unfold withRetry
  rw [hOn]
  cases n with
  | zero =>
      simp [retryAux, failNTimes, trailTrace]
  | succ m =>
      have hop : failNTimes es a (m + 1) 0 = .error (es 0) := by
        simp [failNTimes]
      have hmr : ¬ opts.maxRetries ≤ 0 := by omega
      have hrec := retryAux_tail_ok es a (m + 1) opts.maxRetries opts.isRetryable hr hn
        opts.maxRetries 1 (by omega) (by omega) (by omega)
      simp only [Nat.sub_self] at hrec
      cases hretr : opts.isRetryable with
      | none =>
          simp only [retryAux, if_pos rfl, hop, if_neg hmr]
          rw [hretr] at hrec
          simp only [hrec]
          simp [trailTrace]
      | some p =>
          have hp : p (es 0) = true := by
            have := hr 0 (by omega)
            rw [hretr] at this
            simpa [retryableOk] using this
          simp only [retryAux, if_pos rfl, hop, if_neg hmr, hp, if_pos]
          rw [hretr] at hrec
          simp only [hrec]
          simp [trailTrace]

/-- withRetry against an operation failing n times with n beyond maxRetries:
the error of the final invocation (invocation maxRetries) is rethrown
unchanged and the trace is the trailTrace of maxRetries retries. -/
theorem withRetry_failNTimes_err (es : Nat → E) (a : A) (n : Nat)
    (opts : RetryOptions E) (initErr : E) (hOn : opts.onRetryPresent = true)
    (hr : ∀ k, k < n → retryableOk opts.isRetryable (es k) = true)
    (hn : opts.maxRetries < n) :
    withRetry (failNTimes es a n) opts initErr =
      (trailTrace es opts.maxRetries, .error (es opts.maxRetries)) := by
  unfold withRetry
  rw [hOn]
  have hop : failNTimes es a n 0 = .error (es 0) := by
    simp [failNTimes]
    omega
  cases hM : opts.maxRetries with
  | zero =>
      simp only [retryAux, if_pos rfl, hop]
      simp [trailTrace]
  | succ M =>
      have hmr : ¬ opts.maxRetries ≤ 0 := by omega
      have hrec := retryAux_tail_err es a n opts.maxRetries opts.isRetryable hr hn
        opts.maxRetries 1 (by omega) (by omega) (by omega)
      simp only [Nat.sub_self] at hrec
      cases hretr : opts.isRetryable with
      | none =>
          rw [← hM]
          simp only [retryAux, if_pos rfl, hop, if_neg hmr]
          rw [hretr] at hrec
          simp only [hrec]
          simp [trailTrace]
      | some p =>
          have hp : p (es 0) = true := by
            have := hr 0 (by omega)
            rw [hretr] at this
            simpa [retryableOk] using this
          rw [← hM]
          simp only [retryAux, if_pos rfl, hop, if_neg hmr, hp, if_pos]
          rw [hretr] at hrec
          simp only [hrec]
          simp [trailTrace]

/-- C2 counterexample: for an operation failing once then succeeding with
maxRetries 1, the run succeeds with exactly one sleep and one onRetry
invocation, but the sleep is at trace position 1 and the onRetry at
position 2 - the onRetry callback runs after that retry's sleep, not
before it as the claim states. -/
theorem c2_counterexample :
    (withRetry (failNTimes (fun _ => (7 : Nat)) (42 : Nat) 1)
      { maxRetries := 1 } 0).2 = .ok 42 ∧
    (withRetry (failNTimes (fun _ => (7 : Nat)) (42 : Nat) 1)
      { maxRetries := 1 } 0).1 = [.call 0, .sleep 1, .onRetry 7 1, .call 1] ∧
    sleepCount (withRetry (failNTimes (fun _ => (7 : Nat)) (42 : Nat) 1)
      { maxRetries := 1 } 0).1 = 1 ∧
    onRetryCount (withRetry (failNTimes (fun _ => (7 : Nat)) (42 : Nat) 1)
      { maxRetries := 1 } 0).1 = 1 ∧
    ((withRetry (failNTimes (fun _ => (7 : Nat)) (42 : Nat) 1)
      { maxRetries := 1 } 0).1)[1]? = some (.sleep 1) ∧
    ((withRetry (failNTimes (fun _ => (7 : Nat)) (42 : Nat) 1)
      { maxRetries := 1 } 0).1)[2]? = some (.onRetry 7 1) := by
  refine ⟨rfl, rfl, rfl, rfl, rfl, rfl⟩

/-- C2 amended: against an operation that fails exactly n times then
succeeds, with every raised error admitted by the retryability predicate and
an onRetry callback installed: when n is within maxRetries the wrapped call
returns the success value, invoking onRetry exactly n times, the k-th
invocation receiving the error of invocation k - 1 and the attempt number k,
placed after that retry's sleep and immediately before the retried
invocation (the exact trace is trailTrace); when maxRetries is below n the
operation is invoked exactly maxRetries + 1 times and the error of the last
invocation is rethrown unchanged. -/
theorem c2_retry_amended (es : Nat → E) (a : A) (n : Nat) (opts : RetryOptions E)
    (initErr : E) (hOn : opts.onRetryPresent = true)
    (hr : ∀ k, k < n → retryableOk opts.isRetryable (es k) = true) :
    (n ≤ opts.maxRetries →
      withRetry (failNTimes es a n) opts initErr = (trailTrace es n, .ok a) ∧
      onRetryCount (withRetry (failNTimes es a n) opts initErr).1 = n ∧
      callCount (withRetry (failNTimes es a n) opts initErr).1 = n + 1) ∧
    (opts.maxRetries < n →
      withRetry (failNTimes es a n) opts initErr =
        (trailTrace es opts.maxRetries, .error (es opts.maxRetries)) ∧
      callCount (withRetry (failNTimes es a n) opts initErr).1
        = opts.maxRetries + 1) := by
  constructor
  · intro hn
    have h := withRetry_failNTimes_ok es a n opts initErr hOn hr hn
    rw [h]
    exact ⟨rfl, onRetryCount_trailTrace es n, callCount_trailTrace es n⟩
  · intro hn
    have h := withRetry_failNTimes_err es a n opts initErr hOn hr hn
    rw [h]
    exact ⟨rfl, callCount_trailTrace es opts.maxRetries⟩

/-- Witness for C2 at an operation failing once with maxRetries 2 and at an
operation failing three times with maxRetries 2. -/
theorem c2_witness :
    ({ maxRetries := 2 } : RetryOptions Nat).onRetryPresent = true ∧
    withRetry (failNTimes (fun k => k + 100) (42 : Nat) 1) { maxRetries := 2 } 0 =
      (trailTrace (fun k => k + 100) 1, .ok 42) ∧
    withRetry (failNTimes (fun k => k + 100) (42 : Nat) 3) { maxRetries := 2 } 0 =
      (trailTrace (fun k => k + 100) 2, .error 102) := by
  refine ⟨rfl, ?_, ?_⟩
  · exact ((c2_retry_amended (fun k => k + 100) 42 1 { maxRetries := 2 } 0 rfl
      (fun k _ => rfl)).1 (by decide)).1
  · exact ((c2_retry_amended (fun k => k + 100) 42 3 { maxRetries := 2 } 0 rfl
      (fun k _ => rfl)).2 (by decide)).1

/-- Reading the slot just written by List.set. -/
theorem getElem?_set_here (l : List α) (i : Nat) (a : α) (h : i < l.length) :
    (l.set i a)[i]? = some a := by
  simp [List.getElem?_set_self, h]

/-- Reading another slot after List.set. -/
theorem getElem?_set_other (l : List α) (i j : Nat) (a : α) (h : i ≠ j) :
    (l.set i a)[j]? = l[j]? := by
  simp [List.getElem?_set_ne h]

/-- A successful worker step preserves the run invariant and the worker
count. -/
theorem cstep_inv {items : List T} {f : T → Nat → Except E R}
    {s s' : CState R} {w : Nat} (hinv : CInv items f s)
    (hstep : cstep items f s w = .ok s') :
    CInv items f s' ∧ s'.workers.length = s.workers.length := by
  unfold cstep at hstep
  cases hw : s.workers[w]? with
  | none =>
      rw [hw] at hstep
      cases hstep
      exact ⟨hinv, rfl⟩
  | some st =>
      rw [hw] at hstep
      have hwlt : w < s.workers.length := by
        by_contra hc
        rw [List.getElem?_eq_none (by omega)] at hw
        exact Option.noConfusion hw
      cases st with
      | done =>
          cases hstep
          exact ⟨hinv, rfl⟩
      | idle =>
          by_cases hlt : s.nextIndex < items.length
          · rw [if_pos hlt] at hstep
            cases hstep
            refine ⟨⟨by simpa using hlt, hinv.resLen, hinv.resOk, ?_, ?_, ?_⟩,
              by simp [List.length_set]⟩
            · intro i hi
              by_cases hii : i < s.nextIndex
              · rcases hinv.claimed i hii with ⟨r, hr⟩ | ⟨w', hw'⟩
                · exact Or.inl ⟨r, hr⟩
                · refine Or.inr ⟨w', ?_⟩
                  have hww : w ≠ w' := by
                    intro he
                    rw [← he, hw] at hw'
                    exact Option.noConfusion hw' (fun h => WStatus.noConfusion h)
                  show (s.workers.set w (.running s.nextIndex))[w']? = _
                  rw [getElem?_set_other _ _ _ _ hww]
                  exact hw'
              · have hieq : i = s.nextIndex := by simp at hi; omega
                subst hieq
                exact Or.inr ⟨w, by simpa using getElem?_set_here _ _ _ hwlt⟩
            · intro w' idx' hw'
              simp only [] at hw' ⊢
              by_cases he : w' = w
              · subst he
                rw [getElem?_set_here _ _ _ hwlt] at hw'
                injection hw' with h
                injection h with h2
                omega
              · rw [getElem?_set_other _ _ _ _ (fun hh => he hh.symm)] at hw'
                have := hinv.runLt w' idx' hw'
                simp
                omega
            · intro w' hd
              simp only [] at hd ⊢
              by_cases he : w' = w
              · subst he
                rw [getElem?_set_here _ _ _ hwlt] at hd
                injection hd with h
                exact WStatus.noConfusion h
              · rw [getElem?_set_other _ _ _ _ (fun hh => he hh.symm)] at hd
                have := hinv.doneNext w' hd
                omega
          · rw [if_neg hlt] at hstep
            cases hstep
            refine ⟨⟨hinv.nextLe, hinv.resLen, hinv.resOk, ?_, ?_, ?_⟩,
              by simp [List.length_set]⟩
            · intro i hi
              rcases hinv.claimed i hi with ⟨r, hr⟩ | ⟨w', hw'⟩
              · exact Or.inl ⟨r, hr⟩
              · refine Or.inr ⟨w', ?_⟩
                have hww : w ≠ w' := by
                  intro he
                  rw [← he, hw] at hw'
                  exact Option.noConfusion hw' (fun h => WStatus.noConfusion h)
                show (s.workers.set w .done)[w']? = _
                rw [getElem?_set_other _ _ _ _ hww]
                exact hw'
            · intro w' idx' hw'
              simp only [] at hw' ⊢
              by_cases he : w' = w
              · subst he
                rw [getElem?_set_here _ _ _ hwlt] at hw'
                injection hw' with h
                exact WStatus.noConfusion h
              · rw [getElem?_set_other _ _ _ _ (fun hh => he hh.symm)] at hw'
                exact hinv.runLt w' idx' hw'
            · intro w' hd
              simp only [] at hd ⊢
              by_cases he : w' = w
              · have := hinv.nextLe
                omega
              · rw [getElem?_set_other _ _ _ _ (fun hh => he hh.symm)] at hd
                exact hinv.doneNext w' hd
      | running idx =>
          dsimp only at hstep
          cases hitem : items[idx]? with
          | none =>
              rw [hitem] at hstep
              cases hstep
              exact ⟨hinv, rfl⟩
          | some item =>
              rw [hitem] at hstep
              dsimp only at hstep
              cases hf : f item idx with
              | error e =>
                  rw [hf] at hstep
                  exact Except.noConfusion hstep
              | ok r =>
                  rw [hf] at hstep
                  cases hstep
                  have hidx : idx < s.nextIndex := hinv.runLt w idx hw
                  have hidxres : idx < s.results.length := by
                    rw [hinv.resLen]
                    have := hinv.nextLe
                    omega
                  refine ⟨⟨hinv.nextLe, by simp [List.length_set, hinv.resLen], ?_, ?_, ?_, ?_⟩,
                    by simp [List.length_set]⟩
                  · intro i r' hi
                    simp only [] at hi
                    by_cases he : i = idx
                    · subst he
                      rw [getElem?_set_here _ _ _ hidxres] at hi
                      injection hi with h
                      injection h with h2
                      subst h2
                      exact ⟨item, hitem, hf⟩
                    · rw [getElem?_set_other _ _ _ _ (fun hh => he hh.symm)] at hi
                      exact hinv.resOk i r' hi
                  · intro i hi
                    simp only [] at hi ⊢
                    by_cases he : i = idx
                    · subst he
                      exact Or.inl ⟨r, getElem?_set_here _ _ _ hidxres⟩
                    · rcases hinv.claimed i hi with ⟨r₀, hr₀⟩ | ⟨w', hw'⟩
                      · refine Or.inl ⟨r₀, ?_⟩
                        rw [getElem?_set_other _ _ _ _ (fun hh => he hh.symm)]
                        exact hr₀
                      · by_cases hww : w' = w
                        · subst hww
                          rw [hw] at hw'
                          injection hw' with h
                          injection h with h2
                          exact absurd h2.symm he
                        · refine Or.inr ⟨w', ?_⟩
                          rw [getElem?_set_other _ _ _ _ (fun hh => hww hh.symm)]
                          exact hw'
                  · intro w' idx' hw'
                    simp only [] at hw' ⊢
                    by_cases he : w' = w
                    · subst he
                      rw [getElem?_set_here _ _ _ hwlt] at hw'
                      injection hw' with h
                      exact WStatus.noConfusion h
                    · rw [getElem?_set_other _ _ _ _ (fun hh => he hh.symm)] at hw'
                      exact hinv.runLt w' idx' hw'
                  · intro w' hd
                    simp only [] at hd ⊢
                    by_cases he : w' = w
                    · subst he
                      rw [getElem?_set_here _ _ _ hwlt] at hd
                      injection hd with h
                      exact WStatus.noConfusion h
                    · rw [getElem?_set_other _ _ _ _ (fun hh => he hh.symm)] at hd
                      exact hinv.doneNext w' hd

/-- A rejecting worker step exhibits the invocation whose error it carries. -/
theorem cstep_error {items : List T} {f : T → Nat → Except E R}
    {s : CState R} {w : Nat} {e : E} (hstep : cstep items f s w = .error e) :
    ∃ idx item, items[idx]? = some item ∧ f item idx = .error e := by
  unfold cstep at hstep
  cases hw : s.workers[w]? with
  | none =>
      rw [hw] at hstep
      exact Except.noConfusion hstep
  | some st =>
      rw [hw] at hstep
      cases st with
      | done => exact Except.noConfusion hstep
      | idle =>
          by_cases hlt : s.nextIndex < items.length
          · rw [if_pos hlt] at hstep
            exact Except.noConfusion hstep
          · rw [if_neg hlt] at hstep
            exact Except.noConfusion hstep
      | running idx =>
          dsimp only at hstep
          cases hitem : items[idx]? with
          | none =>
              rw [hitem] at hstep
              exact Except.noConfusion hstep
          | some item =>
              rw [hitem] at hstep
              dsimp only at hstep
              cases hf : f item idx with
              | ok r =>
                  rw [hf] at hstep
                  exact Except.noConfusion hstep
              | error e' =>
                  rw [hf] at hstep
                  injection hstep with h
                  subst h
                  exact ⟨idx, item, hitem, hf⟩

/-- A run that resolves under some schedule has every slot written with the
value its own invocation produced (in particular every invocation on the
inputs succeeded). -/
theorem crun_ok {items : List T} {f : T → Nat → Except E R} :
    ∀ (sched : List Nat) (s : CState R) (res : List (Option R)),
      CInv items f s → s.workers ≠ [] →
      crun items f s sched = some (.ok res) →
      res.length = items.length ∧
      ∀ i, i < items.length →
        ∃ item r, items[i]? = some item ∧ f item i = .ok r ∧
          res[i]? = some (some r) := by
  intro sched
  induction sched with
  | nil =>
      intro s res hinv hne hrun
      unfold crun at hrun
      cases hall : s.workers.all isDoneW with
      | false =>
          rw [hall] at hrun
          simp at hrun
      | true =>
          rw [hall] at hrun
          simp at hrun
          obtain ⟨st0, hst0⟩ : ∃ a, s.workers[0]? = some a := by
            cases hws : s.workers with
            | nil => exact absurd hws hne
            | cons x xs => exact ⟨x, by simp⟩
          have hd0 : isDoneW st0 = true := by
            rw [List.all_eq_true] at hall
            exact hall st0 (List.getElem?_mem hst0)
          have hst0d : st0 = .done := by
            cases st0 with
            | done => rfl
            | idle => simp [isDoneW] at hd0
            | running idx => simp [isDoneW] at hd0
          rw [hst0d] at hst0
          have hnext : s.nextIndex = items.length := hinv.doneNext 0 hst0
          subst hrun
          refine ⟨hinv.resLen, ?_⟩
          intro i hi
          rcases hinv.claimed i (by omega) with ⟨r, hr⟩ | ⟨w', hw'⟩
          · obtain ⟨item, hit, hok⟩ := hinv.resOk i r hr
            exact ⟨item, r, hit, hok, hr⟩
          · have hdw : isDoneW (WStatus.running i) = true := by
              rw [List.all_eq_true] at hall
              exact hall _ (List.getElem?_mem hw')
            simp [isDoneW] at hdw
  | cons w ws ih =>
      intro s res hinv hne hrun
      unfold crun at hrun
      cases hstep : cstep items f s w with
      | error e =>
          rw [hstep] at hrun
          simp at hrun
      | ok s' =>
          rw [hstep] at hrun
          obtain ⟨hinv', hlen⟩ := cstep_inv hinv hstep
          refine ih s' res hinv' ?_ hrun
          intro hnil
          rw [hnil] at hlen
          simp at hlen
          exact hne (List.eq_nil_of_length_eq_zero hlen.symm)

/-- A run that rejects under some schedule carries the error of one of the
per-item invocations on the inputs. -/
theorem crun_error {items : List T} {f : T → Nat → Except E R} :
    ∀ (sched : List Nat) (s : CState R) (e : E),
      crun items f s sched = some (.error e) →
      ∃ idx item, items[idx]? = some item ∧ f item idx = .error e := by
  intro sched
  induction sched with
  | nil =>
      intro s e hrun
      unfold crun at hrun
      cases hall : s.workers.all isDoneW with
      | false => rw [hall] at hrun; simp at hrun
      | true => rw [hall] at hrun; simp at hrun
  | cons w ws ih =>
      intro s e hrun
      unfold crun at hrun
      cases hstep : cstep items f s w with
      | error e' =>
          rw [hstep] at hrun
          simp at hrun
          rw [← hrun]
          exact cstep_error hstep
      | ok s' =>
          rw [hstep] at hrun
          exact ih s' e hrun

/-- The initial state of a withConcurrency run satisfies the invariant. -/
theorem cinv_init (items : List T) (f : T → Nat → Except E R) (c : Nat) :
    CInv items f
      { nextIndex := 0,
        workers := List.replicate (min c items.length) .idle,
        results := List.replicate items.length none } := by
  refine ⟨by simp, by simp, ?_, ?_, ?_, ?_⟩
  · intro i r hi
    simp only [] at hi
    rcases Nat.lt_or_ge i items.length with hlt | hge
    · rw [List.getElem?_replicate, if_pos hlt] at hi
      injection hi with h
      exact Option.noConfusion h
    · rw [List.getElem?_eq_none (by simpa using hge)] at hi
      exact Option.noConfusion hi
  · intro i hi
    simp at hi
  · intro w idx hw
    simp only [] at hw
    rcases Nat.lt_or_ge w (min c items.length) with hlt | hge
    · rw [List.getElem?_replicate, if_pos hlt] at hw
      injection hw with h
      exact WStatus.noConfusion h
    · rw [List.getElem?_eq_none (by simpa using hge)] at hw
      exact Option.noConfusion hw
  · intro w hw
    simp only [] at hw
    rcases Nat.lt_or_ge w (min c items.length) with hlt | hge
    · rw [List.getElem?_replicate, if_pos hlt] at hw
      injection hw with h
      exact WStatus.noConfusion h
    · rw [List.getElem?_eq_none (by simpa using hge)] at hw
      exact Option.noConfusion hw

/-- C7 counterexample: with concurrency limit 0 and a non-empty input, the
batch resolves to an array with an unwritten slot, never invoking the
per-item function - not to the mapped results the claim demands for every
concurrency limit. -/
theorem c7_counterexample :
    withConcurrency [(10 : Nat)] (fun x _ => (Except.ok (x + 1) : Except Nat Nat)) 0 []
      = some (.ok [none]) ∧
    ([none] : List (Option Nat)) ≠ [some 11] := by
  exact ⟨rfl, by decide⟩

/-- C7 amended: for every input list, per-item function and concurrency
limit of at least 1, and every schedule of worker interleavings under which
the batch settles: if it resolves, its result has one written slot per
input, each holding the value the function produced for that input at that
index - so when the function succeeds everywhere the result equals mapping
the function over the inputs in input order, whatever the completion
order - and if it rejects, the error is the one produced by a per-item
invocation on its input (fail-fast propagation). -/
theorem c7_concurrency_amended (items : List T) (f : T → Nat → Except E R)
    (c : Nat) (sched : List Nat) (hc : 1 ≤ c) :
    (∀ res, withConcurrency items f c sched = some (.ok res) →
      res.length = items.length ∧
      ∀ i, i < items.length →
        ∃ item r, items[i]? = some item ∧ f item i = .ok r ∧
          res[i]? = some (some r)) ∧
    (∀ e, withConcurrency items f c sched = some (.error e) →
      ∃ idx item, items[idx]? = some item ∧ f item idx = .error e) ∧
    (∀ (g : Nat → R) res, (∀ i item, items[i]? = some item → f item i = .ok (g i)) →
      withConcurrency items f c sched = some (.ok res) →
      res = (List.range items.length).map (fun i => some (g i))) := by
  have hmain : (∀ res, withConcurrency items f c sched = some (.ok res) →
      res.length = items.length ∧
      ∀ i, i < items.length →
        ∃ item r, items[i]? = some item ∧ f item i = .ok r ∧
          res[i]? = some (some r)) ∧
      (∀ e, withConcurrency items f c sched = some (.error e) →
        ∃ idx item, items[idx]? = some item ∧ f item idx = .error e) := by
    unfold withConcurrency
    cases hempty : items.isEmpty with
    | true =>
        have : items = [] := by
          cases items with
          | nil => rfl
          | cons x xs => simp at hempty
        subst this
        constructor
        · intro res hres
          simp at hres
          subst hres
          exact ⟨rfl, by intro i hi; simp at hi⟩
        · intro e he
          simp at he
    | false =>
        have hne : items ≠ [] := by
          cases items with
          | nil => simp at hempty
          | cons x xs => exact fun h => List.noConfusion h
        have hlen1 : 1 ≤ items.length := by
          cases items with
          | nil => exact absurd rfl hne
          | cons x xs => simp
        have hwne : (List.replicate (min c items.length) (WStatus.idle)) ≠ [] := by
          have hmin : 1 ≤ min c items.length := by omega
          intro h
          have hlen0 : (List.replicate (min c items.length) WStatus.idle).length = 0 := by
            rw [h]
            rfl
          rw [List.length_replicate] at hlen0
          omega
        simp only [Bool.false_eq_true, if_false]
        constructor
        · intro res hres
          exact crun_ok sched _ res (cinv_init items f c) hwne hres
        · intro e he
          exact crun_error sched _ e he
  refine ⟨hmain.1, hmain.2, ?_⟩
  intro g res hg hres
  obtain ⟨hlen, hslots⟩ := hmain.1 res hres
  refine List.ext_getElem? ?_
  intro i
  rcases Nat.lt_or_ge i items.length with hlt | hge
  · obtain ⟨item, r, hit, hok, hslot⟩ := hslots i hlt
    have hgi := hg i item hit
    rw [hok] at hgi
    injection hgi with h
    rw [hslot, List.getElem?_map, List.getElem?_range hlt, h]
    rfl
  · rw [List.getElem?_eq_none (by omega), List.getElem?_eq_none (by simp; omega)]

/-- Witness for C7: three inputs under concurrency 2 and a concrete
completing schedule resolve to the mapped results in input order. -/
theorem c7_witness :
    (1 ≤ 2) ∧
    (∃ item r, ([10, 20, 30] : List Nat)[1]? = some item ∧
      (fun x i => (Except.ok (x + i) : Except Nat Nat)) item 1 = .ok r ∧
      ([some 10, some 21, some 32] : List (Option Nat))[1]? = some (some r)) := by
  refine ⟨by decide, ?_⟩
  exact ((c7_concurrency_amended [10, 20, 30]
    (fun x i => (Except.ok (x + i) : Except Nat Nat)) 2 [0, 1, 0, 1, 0, 0, 1, 0]
    (by decide)).1 [some 10, some 21, some 32] rfl).2 1 (by decide)

end CC
